import Mathlib

/-!
# Verification of `bisync_suffix_macro` (src/lib.rs)

A shallow embedding of the `suffix!` procedural macro:

* `Ident`, `Expr` model the fragment of `syn`'s syntax-tree types the macro
  inspects: method calls (`ExprMethodCall`), await expressions (`ExprAwait`),
  plain function calls, field accesses, path expressions, binary operators and
  the `?` operator.  All other expression shapes are treated opaquely by the
  macro (the default visitor just recurses), so these representative
  constructors cover every behaviour the macro distinguishes.
* `visit_expr_mut` models the traversal `AwaitMethodSuffixer` performs
  (a `syn::visit_mut` walk with an overridden `visit_expr_await_mut`).
* `SuffixMacroInput.parse` / `parse_macro_input` model the `Parse` impl and
  the `parse_macro_input!` entry, over an abstract token list.
* `suffix` models the `#[proc_macro] fn suffix` body, producing the two
  `cfg`-guarded alternatives as a `MacroOutput`.

`proc_macro2::Ident::new` panics when its argument is not a valid identifier;
that panic is modelled as `Option.none` (and `Failure.panicInvalidIdent` at the
macro level).  Identifier validity is modelled over ASCII (Rust uses
XID_Start/XID_Continue; the ASCII fragment suffices for every statement below).
-/

namespace Bisync

/-- A `proc_macro2::Ident`: its text together with its source span
(spans are abstracted to a `Nat` tag; the macro only ever copies them). -/
structure Ident where
  text : String
  span : Nat
deriving DecidableEq, Repr

/-- ASCII model of an identifier-start character (`XID_Start` or `_`). -/
def isIdentStart (c : Char) : Bool := c.isAlpha || c == '_'

/-- ASCII model of an identifier-continue character (`XID_Continue`). -/
def isIdentContinue (c : Char) : Bool := c.isAlphanum || c == '_'

/-- The validity check `proc_macro2::Ident::new` performs: the string is
non-empty, starts with an identifier-start character, continues with
identifier-continue characters, and is not the reserved `_` (a lone
underscore, checked on the character list). -/
def isValidIdent (s : String) : Bool :=
  match s.data with
  | [] => false
  | c :: rest => isIdentStart c && rest.all isIdentContinue && !(c == '_' && rest.isEmpty)

/-- `Ident::new(text, span)`: panics (modelled as `none`) when `text` is not a
valid identifier; otherwise builds the identifier with the given span. -/
def Ident.new (text : String) (span : Nat) : Option Ident :=
  if isValidIdent text then some ⟨text, span⟩ else none

mutual
/-- The expression shapes the macro distinguishes, after `syn::Expr`.
`methodCall` is `ExprMethodCall { receiver, method, args }`; `await` is
`ExprAwait { base }`; the remaining constructors stand for the shapes the
spec singles out as non-qualifying (`ExprCall`, `ExprField`, `ExprPath`,
`ExprBinary`, `ExprTry`), on which the default visitor only recurses. -/
inductive Expr where
  | methodCall (receiver : Expr) (method : Ident) (args : ExprList)
  | await (base : Expr)
  | call (func : Expr) (args : ExprList)
  | field (base : Expr) (member : Ident)
  | path (ident : Ident)
  | binary (op : String) (lhs : Expr) (rhs : Expr)
  | tryOp (expr : Expr)
deriving DecidableEq, Repr

/-- Argument lists (`Punctuated<Expr, Comma>`). -/
inductive ExprList where
  | nil
  | cons (head : Expr) (tail : ExprList)
deriving DecidableEq, Repr
end

mutual
/-- `AwaitMethodSuffixer`'s traversal, `suffixer.visit_expr_mut(expr)`.
The override `visit_expr_mut` delegates to the default walk, which dispatches
on the node kind and recurses into every child.  For an `ExprAwait` the
dispatch lands in the overridden `visit_expr_await_mut`: when the awaited base
is a method call, the method identifier is first replaced by
`Ident::new(format!("{}{}", method, suffix), method.span())` (the `await`
cases below, with the default recursion into the rewritten base — visiting its
receiver and arguments — inlined); then the walk continues into the children.
`Ident::new`'s panic propagates as `none`. -/
def visit_expr_mut (s : String) (e : Expr) : Option Expr :=
  match e with
  | .await (.methodCall r m args) => do
      let m' ← Ident.new (m.text ++ s) m.span
      let r' ← visit_expr_mut s r
      let args' ← visit_args s args
      some (.await (.methodCall r' m' args'))
  | .await b => do
      let b' ← visit_expr_mut s b
      some (.await b')
  | .methodCall r m args => do
      let r' ← visit_expr_mut s r
      let args' ← visit_args s args
      some (.methodCall r' m args')
  | .call f args => do
      let f' ← visit_expr_mut s f
      let args' ← visit_args s args
      some (.call f' args')
  | .field b m => do
      let b' ← visit_expr_mut s b
      some (.field b' m)
  | .path i => some (.path i)
  | .binary op l r => do
      let l' ← visit_expr_mut s l
      let r' ← visit_expr_mut s r
      some (.binary op l' r')
  | .tryOp e => do
      let e' ← visit_expr_mut s e
      some (.tryOp e')

/-- The default walk over an argument list (each element via `visit_expr_mut`). -/
def visit_args (s : String) (l : ExprList) : Option ExprList :=
  match l with
  | .nil => some .nil
  | .cons e es => do
      let e' ← visit_expr_mut s e
      let es' ← visit_args s es
      some (.cons e' es')
end

mutual
/-- Specification-side rewrite, transcribed from the spec's words (§4.2):
at every suspend-point whose immediate operand is a method invocation, the
method-name identifier is replaced by the concatenation of its text and the
suffix (span preserved); every other node is kept unchanged while the
traversal descends into all children.  Total: the spec does not mention the
identifier-validity panic. -/
def rewriteSpec (s : String) (e : Expr) : Expr :=
  match e with
  | .await (.methodCall r m args) =>
      .await (.methodCall (rewriteSpec s r) ⟨m.text ++ s, m.span⟩ (rewriteSpecList s args))
  | .await b => .await (rewriteSpec s b)
  | .methodCall r m args => .methodCall (rewriteSpec s r) m (rewriteSpecList s args)
  | .call f args => .call (rewriteSpec s f) (rewriteSpecList s args)
  | .field b m => .field (rewriteSpec s b) m
  | .path i => .path i
  | .binary op l r => .binary op (rewriteSpec s l) (rewriteSpec s r)
  | .tryOp e => .tryOp (rewriteSpec s e)

/-- `rewriteSpec` mapped over an argument list. -/
def rewriteSpecList (s : String) (l : ExprList) : ExprList :=
  match l with
  | .nil => .nil
  | .cons e es => .cons (rewriteSpec s e) (rewriteSpecList s es)
end

/-- The abstract tokens of a macro invocation's argument stream.  A string
literal carries its unescaped value (`LitStr::value`); a well-formed
expression tail is abstracted to a single `exprTok` carrying its parse; any
other token (a bare identifier such as `foo`, a wrong separator such as `;`)
is `otherTok`. -/
inductive Tok where
  | litStr (value : String)
  | comma
  | exprTok (e : Expr)
  | otherTok (text : String)
deriving DecidableEq, Repr

/-- The two ways an expansion can abort: a `syn` parse error surfaced by
`parse_macro_input!` (the spec's `MalformedInvocation`), or the
`Ident::new` panic during the rewrite. -/
inductive Failure where
  | malformedInvocation
  | panicInvalidIdent
deriving DecidableEq, Repr

/-- `input.parse::<LitStr>()`: succeeds exactly on a leading string literal. -/
def parseLitStr : List Tok → Except Failure (String × List Tok)
  | .litStr v :: rest => .ok (v, rest)
  | _ => .error .malformedInvocation

/-- `input.parse::<Token![,]>()`: succeeds exactly on a leading comma. -/
def parseComma : List Tok → Except Failure (Unit × List Tok)
  | .comma :: rest => .ok ((), rest)
  | _ => .error .malformedInvocation

/-- `input.parse::<Expr>()`: succeeds exactly when the stream continues with a
well-formed expression (abstracted to an `exprTok`). -/
def parseExprTail : List Tok → Except Failure (Expr × List Tok)
  | .exprTok e :: rest => .ok (e, rest)
  | _ => .error .malformedInvocation

/-- `struct SuffixMacroInput { suffix_str, _comma, expr }` (the comma is
consumed and discarded). -/
structure SuffixMacroInput where
  suffix_str : String
  expr : Expr
deriving DecidableEq, Repr

/-- `impl Parse for SuffixMacroInput`: a string literal, then a comma, then an
expression, in strict order; the first failure aborts. -/
def SuffixMacroInput.parse (input : List Tok) :
    Except Failure (SuffixMacroInput × List Tok) := do
  let (s, r1) ← parseLitStr input
  let (_, r2) ← parseComma r1
  let (e, r3) ← parseExprTail r2
  .ok (⟨s, e⟩, r3)

/-- `parse_macro_input!(input as SuffixMacroInput)`: runs the `Parse` impl and
additionally requires the stream to be fully consumed. -/
def parse_macro_input (input : List Tok) : Except Failure SuffixMacroInput :=
  match SuffixMacroInput.parse input with
  | .ok (v, []) => .ok v
  | .ok (_, _ :: _) => .error .malformedInvocation
  | .error e => .error e

/-- A `cfg` predicate: `feature = "…"`, `all(…, …)`, `not(…)`. -/
inductive Cfg where
  | feature (name : String)
  | and2 (p q : Cfg)
  | neg (p : Cfg)
deriving DecidableEq, Repr

/-- Evaluation of a `cfg` predicate against a build configuration `f`
(`f name = true` iff the feature `name` is enabled). -/
def Cfg.eval (f : String → Bool) : Cfg → Bool
  | .feature n => f n
  | .and2 p q => Cfg.eval f p && Cfg.eval f q
  | .neg p => !(Cfg.eval f p)

/-- The emitted composite block: two guarded alternatives, in order. -/
structure MacroOutput where
  asyncGuard : Cfg
  asyncBody : Expr
  blockingGuard : Cfg
  blockingBody : Expr
deriving DecidableEq, Repr

/-- The expression code a build configuration `f` actually compiles from the
emitted block: each alternative is kept exactly when its guard holds. -/
def compiledAlternatives (out : MacroOutput) (f : String → Bool) : List Expr :=
  (if Cfg.eval f out.asyncGuard then [out.asyncBody] else []) ++
  (if Cfg.eval f out.blockingGuard then [out.blockingBody] else [])

/-- `#[proc_macro] pub fn suffix`: parse the input, clone the expression,
run `AwaitMethodSuffixer` over the clone, and emit
`{ #[cfg(feature = "async")] { transformed }
   #[cfg(all(feature = "blocking", not(feature = "async")))] { original } }`.
A parse error aborts with `MalformedInvocation`; the `Ident::new` panic
aborts with `panicInvalidIdent`. -/
def suffix (input : List Tok) : Except Failure MacroOutput :=
  match parse_macro_input input with
  | .error e => .error e
  | .ok parsed =>
      match visit_expr_mut parsed.suffix_str parsed.expr with
      | none => .error .panicInvalidIdent
      | some async_expr_transformed =>
          .ok { asyncGuard := .feature "async"
                asyncBody := async_expr_transformed
                blockingGuard := .and2 (.feature "blocking") (.neg (.feature "async"))
                blockingBody := parsed.expr }

mutual
/-- Erase the method identifier at every qualifying node (an `await` whose
immediate operand is a method call), recursively.  Two trees with equal
erasures coincide everywhere except possibly at those identifier leaves. -/
def eraseQual (e : Expr) : Expr :=
  match e with
  | .await (.methodCall r _ args) =>
      .await (.methodCall (eraseQual r) ⟨"", 0⟩ (eraseQualList args))
  | .await b => .await (eraseQual b)
  | .methodCall r m args => .methodCall (eraseQual r) m (eraseQualList args)
  | .call f args => .call (eraseQual f) (eraseQualList args)
  | .field b m => .field (eraseQual b) m
  | .path i => .path i
  | .binary op l r => .binary op (eraseQual l) (eraseQual r)
  | .tryOp e => .tryOp (eraseQual e)

/-- `eraseQual` over an argument list. -/
def eraseQualList (l : ExprList) : ExprList :=
  match l with
  | .nil => .nil
  | .cons e es => .cons (eraseQual e) (eraseQualList es)
end

mutual
/-- The method identifiers sitting at qualifying nodes, in left-to-right
pre-order: one entry per suspend-point whose operand is a method call. -/
def qualMethods (e : Expr) : List Ident :=
  match e with
  | .await (.methodCall r m args) => m :: (qualMethods r ++ qualMethodsList args)
  | .await b => qualMethods b
  | .methodCall r _ args => qualMethods r ++ qualMethodsList args
  | .call f args => qualMethods f ++ qualMethodsList args
  | .field b _ => qualMethods b
  | .path _ => []
  | .binary _ l r => qualMethods l ++ qualMethods r
  | .tryOp e => qualMethods e

/-- `qualMethods` over an argument list. -/
def qualMethodsList (l : ExprList) : List Ident :=
  match l with
  | .nil => []
  | .cons e es => qualMethods e ++ qualMethodsList es
end

mutual
/-- Every identifier occurring in the tree is a valid identifier — true of
any tree produced by `syn`'s parser, which only builds well-formed idents. -/
def wfIdents (e : Expr) : Bool :=
  match e with
  | .methodCall r m args => isValidIdent m.text && wfIdents r && wfIdentsList args
  | .await b => wfIdents b
  | .call f args => wfIdents f && wfIdentsList args
  | .field b m => isValidIdent m.text && wfIdents b
  | .path i => isValidIdent i.text
  | .binary _ l r => wfIdents l && wfIdents r
  | .tryOp e => wfIdents e

/-- `wfIdents` over an argument list. -/
def wfIdentsList (l : ExprList) : Bool :=
  match l with
  | .nil => true
  | .cons e es => wfIdents e && wfIdentsList es
end

/-! ## Helper lemmas -/

/-- `Ident.new` only ever returns the identifier made of its two arguments. -/
theorem Ident.new_eq_some {t : String} {sp : Nat} {i : Ident}
    (h : Ident.new t sp = some i) : i = ⟨t, sp⟩ := by
  unfold Ident.new at h
  split at h
  · exact (Option.some_inj.mp h).symm
  · cases h

/-- `rewriteSpec` preserves the head constructor; in particular it sends
non-method-call nodes to non-method-call nodes. -/
theorem rewriteSpec_not_methodCall (s : String) (b : Expr)
    (hne : ∀ (r : Expr) (m : Ident) (args : ExprList), b = .methodCall r m args → False) :
    ∀ (r : Expr) (m : Ident) (args : ExprList),
      rewriteSpec s b = .methodCall r m args → False := by
  cases b with
  | methodCall r m args => exact fun _ _ _ _ => hne r m args rfl
  | await inner => cases inner <;> simp [rewriteSpec]
  | _ => simp [rewriteSpec]

/-- The code's traversal refines the spec's rewrite: whenever
`AwaitMethodSuffixer` completes without panicking, the tree it produces is
exactly the one the spec describes. -/
theorem visit_expr_mut_eq_rewriteSpec (s : String) :
    ∀ e : Expr, ∀ t, visit_expr_mut s e = some t → t = rewriteSpec s e :=
  Bisync.visit_expr_mut.induct s
    (fun e => ∀ t, visit_expr_mut s e = some t → t = rewriteSpec s e)
    (fun l => ∀ tl, visit_args s l = some tl → tl = rewriteSpecList s l)
    (fun r m args ihr iha t h => by
      simp only [visit_expr_mut, Ident.new, Option.bind_eq_some, Option.some.injEq, bind,
        Option.ite_none_right_eq_some, rewriteSpec] at h ⊢
      obtain ⟨m', ⟨hv, hm⟩, r', hr, args', ha, ht⟩ := h
      rw [← ht, ← hm, ihr r' hr, iha args' ha])
    (fun b hne ihb t h => by
      rw [visit_expr_mut.eq_2 s b hne] at h
      simp only [Option.bind_eq_some, Option.some.injEq, bind] at h
      obtain ⟨b', hb, ht⟩ := h
      rw [rewriteSpec.eq_2 s b hne, ← ht, ihb b' hb])
    (fun r m args ihr iha t h => by
      simp only [visit_expr_mut, Option.bind_eq_some, Option.some.injEq, bind,
        rewriteSpec] at h ⊢
      obtain ⟨r', hr, args', ha, ht⟩ := h
      rw [← ht, ihr r' hr, iha args' ha])
    (fun f args ihf iha t h => by
      simp only [visit_expr_mut, Option.bind_eq_some, Option.some.injEq, bind,
        rewriteSpec] at h ⊢
      obtain ⟨f', hf, args', ha, ht⟩ := h
      rw [← ht, ihf f' hf, iha args' ha])
    (fun b m ihb t h => by
      simp only [visit_expr_mut, Option.bind_eq_some, Option.some.injEq, bind,
        rewriteSpec] at h ⊢
      obtain ⟨b', hb, ht⟩ := h
      rw [← ht, ihb b' hb])
    (fun i t h => by
      simp only [visit_expr_mut, Option.some.injEq, rewriteSpec] at h ⊢
      rw [← h])
    (fun op l r ihl ihr t h => by
      simp only [visit_expr_mut, Option.bind_eq_some, Option.some.injEq, bind,
        rewriteSpec] at h ⊢
      obtain ⟨l', hl, r', hr, ht⟩ := h
      rw [← ht, ihl l' hl, ihr r' hr])
    (fun e ihe t h => by
      simp only [visit_expr_mut, Option.bind_eq_some, Option.some.injEq, bind,
        rewriteSpec] at h ⊢
      obtain ⟨e', he, ht⟩ := h
      rw [← ht, ihe e' he])
    (fun tl h => by
      simp only [visit_args, Option.some.injEq, rewriteSpecList] at h ⊢
      rw [← h])
    (fun e es ihe ihes tl h => by
      simp only [visit_args, Option.bind_eq_some, Option.some.injEq, bind,
        rewriteSpecList] at h ⊢
      obtain ⟨e', he, es', hes, ht⟩ := h
      rw [← ht, ihe e' he, ihes es' hes])

theorem eraseQual_rewriteSpec (s : String) :
    ∀ e : Expr, eraseQual (rewriteSpec s e) = eraseQual e :=
  Bisync.rewriteSpec.induct s
    (fun e => eraseQual (rewriteSpec s e) = eraseQual e)
    (fun l => eraseQualList (rewriteSpecList s l) = eraseQualList l)
    (fun r m args ihr iha => by
      simp only [rewriteSpec, eraseQual]
      rw [ihr, iha])
    (fun b hne ihb => by
      have ihb' : eraseQual (rewriteSpec s b) = eraseQual b := ihb
      show eraseQual (rewriteSpec s (.await b)) = eraseQual (.await b)
      rw [rewriteSpec.eq_2 s b hne,
        eraseQual.eq_2 (rewriteSpec s b) (rewriteSpec_not_methodCall s b hne),
        eraseQual.eq_2 b hne, ihb'])
    (fun r m args ihr iha => by simp only [rewriteSpec, eraseQual]; rw [ihr, iha])
    (fun f args ihf iha => by simp only [rewriteSpec, eraseQual]; rw [ihf, iha])
    (fun b m ihb => by simp only [rewriteSpec, eraseQual]; rw [ihb])
    (fun i => rfl)
    (fun op l r ihl ihr => by simp only [rewriteSpec, eraseQual]; rw [ihl, ihr])
    (fun e ihe => by simp only [rewriteSpec, eraseQual]; rw [ihe])
    (rfl)
    (fun e es ihe ihes => by simp only [rewriteSpecList, eraseQualList]; rw [ihe, ihes])

theorem qualMethods_rewriteSpec (s : String) :
    ∀ e : Expr, qualMethods (rewriteSpec s e) =
      (qualMethods e).map (fun m => ⟨m.text ++ s, m.span⟩) :=
  Bisync.rewriteSpec.induct s
    (fun e => qualMethods (rewriteSpec s e) =
      (qualMethods e).map (fun m => ⟨m.text ++ s, m.span⟩))
    (fun l => qualMethodsList (rewriteSpecList s l) =
      (qualMethodsList l).map (fun m => ⟨m.text ++ s, m.span⟩))
    (fun r m args ihr iha => by
      simp only [rewriteSpec, qualMethods, List.map_cons, List.map_append]
      rw [ihr, iha])
    (fun b hne ihb => by
      have ihb' : qualMethods (rewriteSpec s b) =
          (qualMethods b).map (fun m => ⟨m.text ++ s, m.span⟩) := ihb
      show qualMethods (rewriteSpec s (.await b)) =
        (qualMethods (.await b)).map (fun m => ⟨m.text ++ s, m.span⟩)
      rw [rewriteSpec.eq_2 s b hne,
        qualMethods.eq_2 (rewriteSpec s b) (rewriteSpec_not_methodCall s b hne),
        qualMethods.eq_2 b hne, ihb'])
    (fun r m args ihr iha => by
      simp only [rewriteSpec, qualMethods, List.map_append]; rw [ihr, iha])
    (fun f args ihf iha => by
      simp only [rewriteSpec, qualMethods, List.map_append]; rw [ihf, iha])
    (fun b m ihb => by simp only [rewriteSpec, qualMethods]; rw [ihb])
    (fun i => rfl)
    (fun op l r ihl ihr => by
      simp only [rewriteSpec, qualMethods, List.map_append]; rw [ihl, ihr])
    (fun e ihe => by simp only [rewriteSpec, qualMethods]; rw [ihe])
    (rfl)
    (fun e es ihe ihes => by
      simp only [rewriteSpecList, qualMethodsList, List.map_append]; rw [ihe, ihes])

theorem isValidIdent_append {m s : String}
    (hm : isValidIdent m = true) (hs : s.data.all isIdentContinue = true) :
    isValidIdent (m ++ s) = true := by
  unfold isValidIdent at hm ⊢
  rcases hd : m.data with _ | ⟨c, rest⟩
  · rw [hd] at hm; exact absurd hm (by simp)
  · rw [hd] at hm
    have hdata : (m ++ s).data = c :: (rest ++ s.data) := by
      rw [String.data_append, hd]; rfl
    rw [hdata]
    simp only [Bool.and_eq_true, Bool.not_eq_true', Bool.and_eq_false_iff,
      List.all_append] at hm ⊢
    obtain ⟨⟨h1, h2⟩, h3⟩ := hm
    refine ⟨⟨h1, ?_⟩, ?_⟩
    · exact ⟨h2, hs⟩
    · rcases h3 with h | h
      · exact Or.inl h
      · right
        cases rest with
        | nil => simp at h
        | cons a l => simp
/-- When every identifier in the tree is valid and every character of the
suffix is an identifier-continue character, the traversal never panics. -/
theorem visit_expr_mut_isSome (s : String) (hs : s.data.all isIdentContinue = true) :
    ∀ e : Expr, wfIdents e = true → ∃ t, visit_expr_mut s e = some t :=
  Bisync.visit_expr_mut.induct s
    (fun e => wfIdents e = true → ∃ t, visit_expr_mut s e = some t)
    (fun l => wfIdentsList l = true → ∃ tl, visit_args s l = some tl)
    (fun r m args ihr iha hw => by
      simp only [wfIdents, Bool.and_eq_true] at hw
      obtain ⟨⟨hm, hr⟩, ha⟩ := hw
      obtain ⟨r', hr'⟩ := ihr hr
      obtain ⟨args', ha'⟩ := iha ha
      have hv : isValidIdent (m.text ++ s) = true := isValidIdent_append hm hs
      exact ⟨.await (.methodCall r' ⟨m.text ++ s, m.span⟩ args'),
        by simp [visit_expr_mut, Ident.new, hv, hr', ha', bind]⟩)
    (fun b hne ihb hw => by
      have hwb : wfIdents b = true := by simpa [wfIdents] using hw
      obtain ⟨b', hb'⟩ := ihb hwb
      exact ⟨.await b', by rw [visit_expr_mut.eq_2 s b hne, hb']; rfl⟩)
    (fun r m args ihr iha hw => by
      simp only [wfIdents, Bool.and_eq_true] at hw
      obtain ⟨⟨hm, hr⟩, ha⟩ := hw
      obtain ⟨r', hr'⟩ := ihr hr
      obtain ⟨args', ha'⟩ := iha ha
      exact ⟨.methodCall r' m args', by simp [visit_expr_mut, hr', ha', bind]⟩)
    (fun f args ihf iha hw => by
      simp only [wfIdents, Bool.and_eq_true] at hw
      obtain ⟨hf, ha⟩ := hw
      obtain ⟨f', hf'⟩ := ihf hf
      obtain ⟨args', ha'⟩ := iha ha
      exact ⟨.call f' args', by simp [visit_expr_mut, hf', ha', bind]⟩)
    (fun b m ihb hw => by
      simp only [wfIdents, Bool.and_eq_true] at hw
      obtain ⟨b', hb'⟩ := ihb hw.2
      exact ⟨.field b' m, by simp [visit_expr_mut, hb', bind]⟩)
    (fun i _ => ⟨.path i, rfl⟩)
    (fun op l r ihl ihr hw => by
      simp only [wfIdents, Bool.and_eq_true] at hw
      obtain ⟨l', hl'⟩ := ihl hw.1
      obtain ⟨r', hr'⟩ := ihr hw.2
      exact ⟨.binary op l' r', by simp [visit_expr_mut, hl', hr', bind]⟩)
    (fun e ihe hw => by
      have hwe : wfIdents e = true := by simpa [wfIdents] using hw
      obtain ⟨e', he'⟩ := ihe hwe
      exact ⟨.tryOp e', by simp [visit_expr_mut, he', bind]⟩)
    (fun _ => ⟨.nil, rfl⟩)
    (fun e es ihe ihes hw => by
      simp only [wfIdentsList, Bool.and_eq_true] at hw
      obtain ⟨e', he'⟩ := ihe hw.1
      obtain ⟨es', hes'⟩ := ihes hw.2
      exact ⟨.cons e' es', by simp [visit_args, he', hes', bind]⟩)

theorem except_bind_ok {α β : Type} (x : Except Failure α) (f : α → Except Failure β) (b : β) :
    (x >>= f) = .ok b ↔ ∃ a, x = .ok a ∧ f a = .ok b := by
  cases x <;> simp [Bind.bind, Except.bind]

theorem parseLitStr_ok (ts : List Tok) (s : String) (r : List Tok) :
    parseLitStr ts = .ok (s, r) ↔ ts = .litStr s :: r := by
  rcases ts with _ | ⟨t, ts⟩
  · simp [parseLitStr]
  · cases t <;> simp [parseLitStr]

theorem parseComma_ok (ts : List Tok) (u : Unit) (r : List Tok) :
    parseComma ts = .ok (u, r) ↔ ts = .comma :: r := by
  rcases ts with _ | ⟨t, ts⟩
  · simp [parseComma]
  · cases t <;> simp [parseComma]

theorem parseExprTail_ok (ts : List Tok) (e : Expr) (r : List Tok) :
    parseExprTail ts = .ok (e, r) ↔ ts = .exprTok e :: r := by
  rcases ts with _ | ⟨t, ts⟩
  · simp [parseExprTail]
  · cases t <;> simp [parseExprTail]

theorem SuffixMacroInput.parse_ok (ts : List Tok) (v : SuffixMacroInput) (r : List Tok) :
    SuffixMacroInput.parse ts = .ok (v, r) ↔
      ts = .litStr v.suffix_str :: .comma :: .exprTok v.expr :: r := by
  constructor
  · intro h
    rcases ts with _ | ⟨t1, ts⟩
    · exact Except.noConfusion h
    cases t1
    case comma => exact Except.noConfusion h
    case exprTok e => exact Except.noConfusion h
    case otherTok x => exact Except.noConfusion h
    case litStr s =>
      rcases ts with _ | ⟨t2, ts⟩
      · exact Except.noConfusion h
      cases t2
      case litStr x => exact Except.noConfusion h
      case exprTok e => exact Except.noConfusion h
      case otherTok x => exact Except.noConfusion h
      case comma =>
        rcases ts with _ | ⟨t3, ts⟩
        · exact Except.noConfusion h
        cases t3
        case litStr x => exact Except.noConfusion h
        case comma => exact Except.noConfusion h
        case otherTok x => exact Except.noConfusion h
        case exprTok e =>
          have h' : (SuffixMacroInput.mk s e, ts) = (v, r) := by
            injection h
          obtain ⟨hv, hr⟩ := Prod.mk.inj h'
          subst hv
          subst hr
          rfl
  · intro h
    subst h
    rfl
theorem parse_macro_input_ok (ts : List Tok) (v : SuffixMacroInput) :
    parse_macro_input ts = .ok v ↔
      ts = [.litStr v.suffix_str, .comma, .exprTok v.expr] := by
  unfold parse_macro_input
  constructor
  · intro h
    rcases hp : SuffixMacroInput.parse ts with f | ⟨w, rest⟩ <;> rw [hp] at h
    · exact Except.noConfusion h
    rcases rest with _ | ⟨t, rest⟩
    · have hw : w = v := by injection h
      subst hw
      exact (SuffixMacroInput.parse_ok ts w []).mp hp
    · exact Except.noConfusion h
  · intro h
    have hp : SuffixMacroInput.parse ts = .ok (v, []) :=
      (SuffixMacroInput.parse_ok ts v []).mpr h
    rw [hp]

theorem parse_macro_input_ok_or_malformed (ts : List Tok) :
    (∃ v, parse_macro_input ts = .ok v) ∨
      parse_macro_input ts = .error .malformedInvocation := by
  rcases ts with _ | ⟨t1, ts⟩
  · right; rfl
  cases t1
  case comma => right; rfl
  case exprTok e => right; rfl
  case otherTok x => right; rfl
  case litStr s =>
    rcases ts with _ | ⟨t2, ts⟩
    · right; rfl
    cases t2
    case litStr x => right; rfl
    case exprTok e => right; rfl
    case otherTok x => right; rfl
    case comma =>
      rcases ts with _ | ⟨t3, ts⟩
      · right; rfl
      cases t3
      case litStr x => right; rfl
      case comma => right; rfl
      case otherTok x => right; rfl
      case exprTok e =>
        rcases ts with _ | ⟨t4, ts⟩
        · exact Or.inl ⟨⟨s, e⟩, rfl⟩
        · right; rfl

/-- Anatomy of a successful expansion: the input parsed, the clone was
traversed without panic, and the output block carries the two fixed guards,
the transformed tree under the async guard and the untouched original under
the blocking guard. -/
theorem suffix_ok_elim (input : List Tok) (out : MacroOutput)
    (h : suffix input = .ok out) :
    ∃ v t, parse_macro_input input = .ok v ∧
      visit_expr_mut v.suffix_str v.expr = some t ∧
      out = { asyncGuard := .feature "async"
              asyncBody := t
              blockingGuard := .and2 (.feature "blocking") (.neg (.feature "async"))
              blockingBody := v.expr } := by
  unfold suffix at h
  rcases hp : parse_macro_input input with f | v <;> rw [hp] at h <;> dsimp only at h
  · exact Except.noConfusion h
  rcases hv : visit_expr_mut v.suffix_str v.expr with _ | t <;> rw [hv] at h
  · exact Except.noConfusion h
  refine ⟨v, t, rfl, hv, ?_⟩
  have h' : MacroOutput.mk (.feature "async") t
      (.and2 (.feature "blocking") (.neg (.feature "async"))) v.expr = out := by
    injection h
  exact h'.symm

/-- Evaluating the emitted block's two guards under any configuration. -/
theorem compiledAlternatives_eval (out : MacroOutput) (f : String → Bool)
    (ha : out.asyncGuard = .feature "async")
    (hb : out.blockingGuard = .and2 (.feature "blocking") (.neg (.feature "async"))) :
    compiledAlternatives out f =
      if f "async" then [out.asyncBody]
      else if f "blocking" then [out.blockingBody] else [] := by
  rcases hfa : f "async" <;> rcases hfb : f "blocking" <;>
    simp [compiledAlternatives, Cfg.eval, ha, hb, hfa, hfb]

/-! ## Claims -/

/-- C1: for every input expression and suffix string, whenever the traversal
completes, the transformed tree is exactly `rewriteSpec s e` — the tree in
which every await-expression whose immediate operand is a method invocation
has its method-name identifier replaced by the literal concatenation of the
original text and the suffix (no separator), with the invocation's receiver,
argument list and every other node left unchanged. -/
theorem claim_C1_qualifying_methods_suffixed (s : String) (e t : Expr)
    (h : visit_expr_mut s e = some t) : t = rewriteSpec s e :=
  visit_expr_mut_eq_rewriteSpec s e t h

/-- Witness for C1 at `suffix!("_async", self.sensor.read().await?)`. -/
theorem claim_C1_witness :
    visit_expr_mut "_async"
        (.tryOp (.await (.methodCall (.methodCall (.path ⟨"self", 0⟩) ⟨"sensor", 1⟩ .nil)
          ⟨"read", 2⟩ .nil)))
      = some (.tryOp (.await (.methodCall (.methodCall (.path ⟨"self", 0⟩) ⟨"sensor", 1⟩ .nil)
          ⟨"read_async", 2⟩ .nil)))
    ∧ (Expr.tryOp (.await (.methodCall (.methodCall (.path ⟨"self", 0⟩) ⟨"sensor", 1⟩ .nil)
          ⟨"read_async", 2⟩ .nil)))
      = rewriteSpec "_async"
          (.tryOp (.await (.methodCall (.methodCall (.path ⟨"self", 0⟩) ⟨"sensor", 1⟩ .nil)
            ⟨"read", 2⟩ .nil))) :=
  ⟨rfl, claim_C1_qualifying_methods_suffixed "_async" _ _ rfl⟩

/-- C3: on a successful expansion the blocking alternative carries the parsed
expression itself, untouched, and the async alternative differs from it at
most at the method-identifier leaves directly beneath qualifying
suspend-points (their erasures coincide, so no other node differs). -/
theorem claim_C3_frame (input : List Tok) (out : MacroOutput)
    (h : suffix input = .ok out) :
    ∃ v, parse_macro_input input = .ok v ∧ out.blockingBody = v.expr ∧
      eraseQual out.asyncBody = eraseQual v.expr := by
  obtain ⟨v, t, hp, hv, hout⟩ := suffix_ok_elim input out h
  refine ⟨v, hp, by rw [hout], ?_⟩
  rw [hout]
  show eraseQual t = eraseQual v.expr
  rw [visit_expr_mut_eq_rewriteSpec _ _ _ hv, eraseQual_rewriteSpec]

/-- Witness for C3 at `suffix!("_async", self.sensor.read().await?)`. -/
theorem claim_C3_witness :
    suffix [Tok.litStr "_async", Tok.comma,
        Tok.exprTok (.tryOp (.await (.methodCall (.methodCall (.path ⟨"self", 0⟩)
          ⟨"sensor", 1⟩ .nil) ⟨"read", 2⟩ .nil)))]
      = .ok { asyncGuard := .feature "async"
              asyncBody := .tryOp (.await (.methodCall (.methodCall (.path ⟨"self", 0⟩)
                ⟨"sensor", 1⟩ .nil) ⟨"read_async", 2⟩ .nil))
              blockingGuard := .and2 (.feature "blocking") (.neg (.feature "async"))
              blockingBody := .tryOp (.await (.methodCall (.methodCall (.path ⟨"self", 0⟩)
                ⟨"sensor", 1⟩ .nil) ⟨"read", 2⟩ .nil)) }
    ∧ ∃ v, parse_macro_input [Tok.litStr "_async", Tok.comma,
        Tok.exprTok (.tryOp (.await (.methodCall (.methodCall (.path ⟨"self", 0⟩)
          ⟨"sensor", 1⟩ .nil) ⟨"read", 2⟩ .nil)))] = .ok v
      ∧ (MacroOutput.mk (.feature "async")
          (.tryOp (.await (.methodCall (.methodCall (.path ⟨"self", 0⟩)
            ⟨"sensor", 1⟩ .nil) ⟨"read_async", 2⟩ .nil)))
          (.and2 (.feature "blocking") (.neg (.feature "async")))
          (.tryOp (.await (.methodCall (.methodCall (.path ⟨"self", 0⟩)
            ⟨"sensor", 1⟩ .nil) ⟨"read", 2⟩ .nil)))).blockingBody = v.expr
      ∧ eraseQual (MacroOutput.mk (.feature "async")
          (.tryOp (.await (.methodCall (.methodCall (.path ⟨"self", 0⟩)
            ⟨"sensor", 1⟩ .nil) ⟨"read_async", 2⟩ .nil)))
          (.and2 (.feature "blocking") (.neg (.feature "async")))
          (.tryOp (.await (.methodCall (.methodCall (.path ⟨"self", 0⟩)
            ⟨"sensor", 1⟩ .nil) ⟨"read", 2⟩ .nil)))).asyncBody = eraseQual v.expr :=
  ⟨rfl, claim_C3_frame _ _ rfl⟩

/-- C2: every successful expansion emits one block with exactly two
alternatives: the transformed clone under `cfg(feature = "async")` and the
original expression under `cfg(all(feature = "blocking", not(feature =
"async")))`; which one a build compiles is a pure function of the feature
configuration, and a configuration satisfying neither guard compiles the
block to nothing. -/
theorem claim_C2_dual_emission (input : List Tok) (out : MacroOutput)
    (f : String → Bool) (h : suffix input = .ok out) :
    ∃ v, parse_macro_input input = .ok v ∧
      out.asyncGuard = .feature "async" ∧
      out.blockingGuard = .and2 (.feature "blocking") (.neg (.feature "async")) ∧
      visit_expr_mut v.suffix_str v.expr = some out.asyncBody ∧
      out.blockingBody = v.expr ∧
      compiledAlternatives out f =
        (if f "async" then [out.asyncBody]
         else if f "blocking" then [out.blockingBody] else []) := by
  obtain ⟨v, t, hp, hv, hout⟩ := suffix_ok_elim input out h
  subst hout
  exact ⟨v, hp, rfl, rfl, hv, rfl, compiledAlternatives_eval _ f rfl rfl⟩

/-- Witness for C2 at `suffix!("_x", a.f().await)` under a configuration with
only the `blocking` feature enabled, which selects the original tree. -/
theorem claim_C2_witness :
    suffix [Tok.litStr "_x", Tok.comma,
        Tok.exprTok (.await (.methodCall (.path ⟨"a", 0⟩) ⟨"f", 1⟩ .nil))]
      = .ok { asyncGuard := .feature "async"
              asyncBody := .await (.methodCall (.path ⟨"a", 0⟩) ⟨"f_x", 1⟩ .nil)
              blockingGuard := .and2 (.feature "blocking") (.neg (.feature "async"))
              blockingBody := .await (.methodCall (.path ⟨"a", 0⟩) ⟨"f", 1⟩ .nil) }
    ∧ ∃ v, parse_macro_input [Tok.litStr "_x", Tok.comma,
        Tok.exprTok (.await (.methodCall (.path ⟨"a", 0⟩) ⟨"f", 1⟩ .nil))] = .ok v ∧
      (MacroOutput.mk (.feature "async")
          (.await (.methodCall (.path ⟨"a", 0⟩) ⟨"f_x", 1⟩ .nil))
          (.and2 (.feature "blocking") (.neg (.feature "async")))
          (.await (.methodCall (.path ⟨"a", 0⟩) ⟨"f", 1⟩ .nil))).asyncGuard
        = .feature "async" ∧
      (MacroOutput.mk (.feature "async")
          (.await (.methodCall (.path ⟨"a", 0⟩) ⟨"f_x", 1⟩ .nil))
          (.and2 (.feature "blocking") (.neg (.feature "async")))
          (.await (.methodCall (.path ⟨"a", 0⟩) ⟨"f", 1⟩ .nil))).blockingGuard
        = .and2 (.feature "blocking") (.neg (.feature "async")) ∧
      visit_expr_mut v.suffix_str v.expr
        = some (MacroOutput.mk (.feature "async")
            (.await (.methodCall (.path ⟨"a", 0⟩) ⟨"f_x", 1⟩ .nil))
            (.and2 (.feature "blocking") (.neg (.feature "async")))
            (.await (.methodCall (.path ⟨"a", 0⟩) ⟨"f", 1⟩ .nil))).asyncBody ∧
      (MacroOutput.mk (.feature "async")
          (.await (.methodCall (.path ⟨"a", 0⟩) ⟨"f_x", 1⟩ .nil))
          (.and2 (.feature "blocking") (.neg (.feature "async")))
          (.await (.methodCall (.path ⟨"a", 0⟩) ⟨"f", 1⟩ .nil))).blockingBody = v.expr ∧
      compiledAlternatives (MacroOutput.mk (.feature "async")
          (.await (.methodCall (.path ⟨"a", 0⟩) ⟨"f_x", 1⟩ .nil))
          (.and2 (.feature "blocking") (.neg (.feature "async")))
          (.await (.methodCall (.path ⟨"a", 0⟩) ⟨"f", 1⟩ .nil))) (fun n => n == "blocking")
        = (if (fun n => n == "blocking") "async"
            then [(MacroOutput.mk (.feature "async")
              (.await (.methodCall (.path ⟨"a", 0⟩) ⟨"f_x", 1⟩ .nil))
              (.and2 (.feature "blocking") (.neg (.feature "async")))
              (.await (.methodCall (.path ⟨"a", 0⟩) ⟨"f", 1⟩ .nil))).asyncBody]
           else if (fun n => n == "blocking") "blocking"
            then [(MacroOutput.mk (.feature "async")
              (.await (.methodCall (.path ⟨"a", 0⟩) ⟨"f_x", 1⟩ .nil))
              (.and2 (.feature "blocking") (.neg (.feature "async")))
              (.await (.methodCall (.path ⟨"a", 0⟩) ⟨"f", 1⟩ .nil))).blockingBody]
            else []) :=
  ⟨rfl, claim_C2_dual_emission _ _ (fun n => n == "blocking") rfl⟩

/-- C4: a suspend-point whose operand is not a method invocation is left
structurally unchanged — it stays an await node, no identifier is renamed at
this level — while the traversal still descends into the operand, rewriting
qualifying descendants exactly as the spec rewrite does. -/
theorem claim_C4_non_qualifying_untouched (s : String) (b t : Expr)
    (hne : ∀ (r : Expr) (m : Ident) (args : ExprList), b = .methodCall r m args → False)
    (h : visit_expr_mut s (.await b) = some t) :
    ∃ b', visit_expr_mut s b = some b' ∧ t = .await b' ∧ b' = rewriteSpec s b := by
  rw [visit_expr_mut.eq_2 s b hne] at h
  simp only [Option.bind_eq_some, Option.some.injEq, bind] at h
  obtain ⟨b', hb, ht⟩ := h
  exact ⟨b', hb, ht.symm, visit_expr_mut_eq_rewriteSpec s b b' hb⟩

/-- Witness for C4 at `(x.g().await + y).await`: the outer suspend-point is
over a binary operation (non-qualifying) and stays unchanged, while the
qualifying suspend-point nested in its operand is rewritten. -/
theorem claim_C4_witness :
    visit_expr_mut "_x"
        (.await (.binary "+" (.await (.methodCall (.path ⟨"x", 0⟩) ⟨"g", 1⟩ .nil))
          (.path ⟨"y", 2⟩)))
      = some (.await (.binary "+" (.await (.methodCall (.path ⟨"x", 0⟩) ⟨"g_x", 1⟩ .nil))
          (.path ⟨"y", 2⟩)))
    ∧ ∃ b', visit_expr_mut "_x"
          (.binary "+" (.await (.methodCall (.path ⟨"x", 0⟩) ⟨"g", 1⟩ .nil))
            (.path ⟨"y", 2⟩)) = some b'
        ∧ (Expr.await (.binary "+" (.await (.methodCall (.path ⟨"x", 0⟩) ⟨"g_x", 1⟩ .nil))
            (.path ⟨"y", 2⟩))) = .await b'
        ∧ b' = rewriteSpec "_x"
            (.binary "+" (.await (.methodCall (.path ⟨"x", 0⟩) ⟨"g", 1⟩ .nil))
              (.path ⟨"y", 2⟩)) :=
  ⟨rfl, claim_C4_non_qualifying_untouched "_x" _ _
    (fun _ _ _ hc => Expr.noConfusion hc) rfl⟩

/-- C5: the multiset (in fact, the pre-order list) of qualifying method names
after the rewrite is exactly the original list with the suffix appended once
to each entry: every qualifying suspend-point — including ones nested in the
receiver chain or the argument list of another qualifying call — is rewritten,
none is skipped, and no name receives the suffix twice. -/
theorem claim_C5_nested_all_rewritten_once (s : String) (e t : Expr)
    (h : visit_expr_mut s e = some t) :
    (qualMethods t).map Ident.text = (qualMethods e).map (fun m => m.text ++ s) := by
  rw [visit_expr_mut_eq_rewriteSpec s e t h, qualMethods_rewriteSpec, List.map_map]
  rfl

/-- Witness for C5 at `x.f(y.g().await).await`: both the outer and the nested
qualifying suspend-points are rewritten, each exactly once. -/
theorem claim_C5_witness :
    visit_expr_mut "_x"
        (.await (.methodCall (.path ⟨"x", 0⟩) ⟨"f", 1⟩
          (.cons (.await (.methodCall (.path ⟨"y", 2⟩) ⟨"g", 3⟩ .nil)) .nil)))
      = some (.await (.methodCall (.path ⟨"x", 0⟩) ⟨"f_x", 1⟩
          (.cons (.await (.methodCall (.path ⟨"y", 2⟩) ⟨"g_x", 3⟩ .nil)) .nil)))
    ∧ (qualMethods (.await (.methodCall (.path ⟨"x", 0⟩) ⟨"f_x", 1⟩
          (.cons (.await (.methodCall (.path ⟨"y", 2⟩) ⟨"g_x", 3⟩ .nil)) .nil)))).map Ident.text
      = (qualMethods (.await (.methodCall (.path ⟨"x", 0⟩) ⟨"f", 1⟩
          (.cons (.await (.methodCall (.path ⟨"y", 2⟩) ⟨"g", 3⟩ .nil)) .nil)))).map
            (fun m => m.text ++ "_x") :=
  ⟨rfl, claim_C5_nested_all_rewritten_once "_x" _ _ rfl⟩

/-- C6: `parse_macro_input` fails with `MalformedInvocation` exactly when the
token stream is not `STRING_LITERAL , EXPRESSION` — when the first token is
not a string literal, the separator is missing or of the wrong kind, or the
remainder is not a single well-formed expression; the failure aborts the whole
expansion (`suffix` propagates it); in particular `suffix("_async")` (missing
expression) and `suffix(foo, bar().await)` (non-literal first argument) fail. -/
theorem claim_C6_malformed_invocation :
    (∀ ts : List Tok, parse_macro_input ts = .error .malformedInvocation ↔
      ¬ ∃ (s : String) (e : Expr), ts = [.litStr s, .comma, .exprTok e])
    ∧ (∀ (ts : List Tok) (f : Failure),
        parse_macro_input ts = .error f → suffix ts = .error f)
    ∧ parse_macro_input [.litStr "_async"] = .error .malformedInvocation
    ∧ parse_macro_input [.otherTok "foo", .comma,
        .exprTok (.await (.call (.path ⟨"bar", 0⟩) .nil))]
      = .error .malformedInvocation := by
  refine ⟨?_, ?_, rfl, rfl⟩
  · intro ts
    constructor
    · rintro h ⟨s, e, rfl⟩
      have hok : parse_macro_input [.litStr s, .comma, .exprTok e] = .ok ⟨s, e⟩ :=
        (parse_macro_input_ok _ ⟨s, e⟩).mpr rfl
      rw [h] at hok
      exact Except.noConfusion hok
    · intro hn
      rcases parse_macro_input_ok_or_malformed ts with ⟨v, hv⟩ | herr
      · exact absurd ⟨v.suffix_str, v.expr, (parse_macro_input_ok ts v).mp hv⟩ hn
      · exact herr
  · intro ts f h
    unfold suffix
    rw [h]

/-- Witness for C6: a lone comma is not a well-formed invocation. -/
theorem claim_C6_witness :
    parse_macro_input [Tok.comma] = .error .malformedInvocation :=
  (claim_C6_malformed_invocation.1 [Tok.comma]).mpr (by rintro ⟨s, e, h⟩; simp at h)

/-- C7 fails as stated: the invocation parser accepts any string literal as
the suffix, but `Ident::new` panics when the concatenated name is not a valid
identifier, so the rewrite action does not always succeed.  The accepted
suffix `"-"` makes `b-` invalid and the expansion aborts with the panic —
a third failure mode beyond `MalformedInvocation` and downstream resolution. -/
theorem claim_C7_counterexample :
    suffix [.litStr "-", .comma,
        .exprTok (.await (.methodCall (.path ⟨"a", 0⟩) ⟨"b", 1⟩ .nil))]
      = .error .panicInvalidIdent := rfl

/-- C7 amended: when every character of the accepted suffix is an
identifier-continue character and the expression's identifiers are well
formed (as any parsed expression's are), the rewrite always produces valid
identifiers and the expansion succeeds; a suffix outside that set aborts the
expansion with a reported panic, never silently. -/
theorem claim_C7_amended_rewrite_succeeds (s : String) (e : Expr)
    (hs : s.data.all isIdentContinue = true) (he : wfIdents e = true) :
    ∃ out, suffix [.litStr s, .comma, .exprTok e] = .ok out := by
  obtain ⟨t, ht⟩ := visit_expr_mut_isSome s hs e he
  have hp : parse_macro_input [.litStr s, .comma, .exprTok e] = .ok ⟨s, e⟩ :=
    (parse_macro_input_ok _ ⟨s, e⟩).mpr rfl
  refine ⟨{ asyncGuard := .feature "async", asyncBody := t,
            blockingGuard := .and2 (.feature "blocking") (.neg (.feature "async")),
            blockingBody := e }, ?_⟩
  unfold suffix
  rw [hp]
  dsimp only
  rw [ht]

/-- Witness for C7 (amended) at `suffix!("_async", a.read().await)`. -/
theorem claim_C7_witness :
    ("_async".data.all isIdentContinue = true)
    ∧ (wfIdents (.await (.methodCall (.path ⟨"a", 0⟩) ⟨"read", 1⟩ .nil)) = true)
    ∧ ∃ out, suffix [.litStr "_async", .comma,
        .exprTok (.await (.methodCall (.path ⟨"a", 0⟩) ⟨"read", 1⟩ .nil))] = .ok out :=
  ⟨by decide, by decide,
    claim_C7_amended_rewrite_succeeds "_async" _ (by decide) (by decide)⟩

/-- C8: a rewritten method identifier keeps the replaced identifier's span:
the list of source spans at qualifying suspend-points is unchanged by the
traversal (and all other nodes, spans included, are untouched, per C3). -/
theorem claim_C8_spans_preserved (s : String) (e t : Expr)
    (h : visit_expr_mut s e = some t) :
    (qualMethods t).map Ident.span = (qualMethods e).map Ident.span := by
  rw [visit_expr_mut_eq_rewriteSpec s e t h, qualMethods_rewriteSpec, List.map_map]
  rfl

/-- Witness for C8: spans 7 and 9 survive the rewrite. -/
theorem claim_C8_witness :
    visit_expr_mut "_a" (.await (.methodCall (.path ⟨"x", 3⟩) ⟨"f", 7⟩
        (.cons (.await (.methodCall (.path ⟨"y", 5⟩) ⟨"g", 9⟩ .nil)) .nil)))
      = some (.await (.methodCall (.path ⟨"x", 3⟩) ⟨"f_a", 7⟩
        (.cons (.await (.methodCall (.path ⟨"y", 5⟩) ⟨"g_a", 9⟩ .nil)) .nil)))
    ∧ (qualMethods (.await (.methodCall (.path ⟨"x", 3⟩) ⟨"f_a", 7⟩
        (.cons (.await (.methodCall (.path ⟨"y", 5⟩) ⟨"g_a", 9⟩ .nil)) .nil)))).map Ident.span
      = (qualMethods (.await (.methodCall (.path ⟨"x", 3⟩) ⟨"f", 7⟩
        (.cons (.await (.methodCall (.path ⟨"y", 5⟩) ⟨"g", 9⟩ .nil)) .nil)))).map Ident.span :=
  ⟨rfl, claim_C8_spans_preserved "_a" _ _ rfl⟩

/-- C9 fails as stated: nothing in the parser checks the suffix literal for
non-emptiness; `suffix!("", x)` parses successfully into a request whose
suffix is the empty string. -/
theorem claim_C9_counterexample :
    parse_macro_input [.litStr "", .comma, .exprTok (.path ⟨"x", 0⟩)]
      = .ok ⟨"", .path ⟨"x", 0⟩⟩ := rfl

/-- C9 amended: a successful parse returns exactly the literal's value as the
suffix — any string, the empty string included. -/
theorem claim_C9_amended_any_literal_suffix (s : String) (e : Expr) :
    parse_macro_input [.litStr s, .comma, .exprTok e] = .ok ⟨s, e⟩ :=
  (parse_macro_input_ok [.litStr s, .comma, .exprTok e] ⟨s, e⟩).mpr rfl

/-- C10: the two emitted guards are mutually exclusive by construction — the
blocking guard conjoins `not(feature = "async")` — so under every assignment
of the two features at most one alternative is compiled, and with both
features enabled exactly the transformed (async) alternative is compiled. -/
theorem claim_C10_guards_mutually_exclusive (input : List Tok) (out : MacroOutput)
    (f : String → Bool) (h : suffix input = .ok out) :
    ¬(Cfg.eval f out.asyncGuard = true ∧ Cfg.eval f out.blockingGuard = true)
    ∧ (f "async" = true → f "blocking" = true →
        compiledAlternatives out f = [out.asyncBody]) := by
  obtain ⟨v, t, hp, hv, hout⟩ := suffix_ok_elim input out h
  subst hout
  constructor
  · rintro ⟨ha, hb⟩
    simp only [Cfg.eval, Bool.and_eq_true, Bool.not_eq_true'] at ha hb
    simp [hb.2] at ha
  · intro ha hb
    simp [compiledAlternatives, Cfg.eval, ha, hb]

/-- Witness for C10 at `suffix!("_x", a.f().await)` with both features on. -/
theorem claim_C10_witness :
    suffix [Tok.litStr "_x", Tok.comma,
        Tok.exprTok (.await (.methodCall (.path ⟨"a", 0⟩) ⟨"f", 1⟩ .nil))]
      = .ok { asyncGuard := .feature "async"
              asyncBody := .await (.methodCall (.path ⟨"a", 0⟩) ⟨"f_x", 1⟩ .nil)
              blockingGuard := .and2 (.feature "blocking") (.neg (.feature "async"))
              blockingBody := .await (.methodCall (.path ⟨"a", 0⟩) ⟨"f", 1⟩ .nil) }
    ∧ (¬(Cfg.eval (fun _ => true) (MacroOutput.mk (.feature "async")
          (.await (.methodCall (.path ⟨"a", 0⟩) ⟨"f_x", 1⟩ .nil))
          (.and2 (.feature "blocking") (.neg (.feature "async")))
          (.await (.methodCall (.path ⟨"a", 0⟩) ⟨"f", 1⟩ .nil))).asyncGuard = true
        ∧ Cfg.eval (fun _ => true) (MacroOutput.mk (.feature "async")
          (.await (.methodCall (.path ⟨"a", 0⟩) ⟨"f_x", 1⟩ .nil))
          (.and2 (.feature "blocking") (.neg (.feature "async")))
          (.await (.methodCall (.path ⟨"a", 0⟩) ⟨"f", 1⟩ .nil))).blockingGuard = true)
      ∧ ((fun (_ : String) => true) "async" = true →
          (fun (_ : String) => true) "blocking" = true →
          compiledAlternatives (MacroOutput.mk (.feature "async")
            (.await (.methodCall (.path ⟨"a", 0⟩) ⟨"f_x", 1⟩ .nil))
            (.and2 (.feature "blocking") (.neg (.feature "async")))
            (.await (.methodCall (.path ⟨"a", 0⟩) ⟨"f", 1⟩ .nil))) (fun _ => true)
            = [(MacroOutput.mk (.feature "async")
                (.await (.methodCall (.path ⟨"a", 0⟩) ⟨"f_x", 1⟩ .nil))
                (.and2 (.feature "blocking") (.neg (.feature "async")))
                (.await (.methodCall (.path ⟨"a", 0⟩) ⟨"f", 1⟩ .nil))).asyncBody])) :=
  ⟨rfl, claim_C10_guards_mutually_exclusive
    [Tok.litStr "_x", Tok.comma,
      Tok.exprTok (.await (.methodCall (.path ⟨"a", 0⟩) ⟨"f", 1⟩ .nil))]
    _ (fun _ => true) rfl⟩

end Bisync
